import Mathlib

/-!
Verification of the routing-and-chunking engine of the translation-manager
service: a shallow embedding of the Go packages `chunker` (token estimation,
token-budget chunking, count-based chunking), `router` (language-pair
resolution over the hub/leaf language graph and sequential hop execution),
and `handler` (request validation and orchestration), together with theorems
settling the specification claims about them.

Conventions of the embedding:
- Go byte strings are Lean `String`s; Go `len(s)` on a string is the UTF-8
  byte count, embedded as `String.utf8ByteSize`.
- Go `int` values that reach arithmetic only after being normalized to a
  positive value are carried as `Int` at the boundary and `Nat` inside.
- A Go `nil` slice result meaning "no batches" is the empty list; the
  `nil`-vs-present distinction of the request `texts` field is `Option`.
- Remote Lambda invocation is abstracted as an oracle argument; the
  embedding additionally records the trace of remote calls performed so
  that claims about "zero remote calls" and "no later hop invoked" are
  statable.
-/

set_option maxHeartbeats 1000000

namespace TM

/-- Go constant `chunker.DefaultMaxTextsPerChunk` (count-based chunker). -/
def DefaultMaxTextsPerChunk : Int := 50

/-- Go constant `chunker.DefaultMaxTokens` (token-budget chunker). -/
def DefaultMaxTokens : Int := 3000

/-- Go `chunker.EstimateTokens`: 0 for the empty string, otherwise the byte
length divided by 4 (Go integer division truncates toward zero, i.e. floor
for non-negative values), bumped to 1 when the quotient is 0. -/
def EstimateTokens (text : String) : Nat :=
  if text.utf8ByteSize = 0 then 0
  else
    let tokens := text.utf8ByteSize / 4
    if tokens = 0 then 1 else tokens

/-- Loop of Go `chunker.ChunkTexts`: slice the list into windows of
`maxTexts` items (`texts[i:end]` for `i = 0, maxTexts, 2*maxTexts, ...`).
The Go loop only runs with `maxTexts ≥ 1` (normalization happens before). -/
def chunkTextsLoop (maxTexts : Nat) : List String → List (List String)
  | [] => []
  | t :: rest =>
      (t :: rest).take maxTexts :: chunkTextsLoop maxTexts (rest.drop (maxTexts - 1))
termination_by ts => ts.length
decreasing_by
  simp only [List.length_drop, List.length_cons]
  omega

/-- Effective per-chunk item limit of `ChunkTexts`: non-positive arguments
are replaced by `DefaultMaxTextsPerChunk`. -/
def effMaxTexts (maxTexts : Int) : Nat :=
  (if maxTexts ≤ 0 then DefaultMaxTextsPerChunk else maxTexts).toNat

/-- Go `chunker.ChunkTexts`: split `texts` into chunks of at most
`maxTexts` texts each (default 50 when `maxTexts ≤ 0`); `nil` for empty
input. -/
def ChunkTexts (texts : List String) (maxTexts : Int) : List (List String) :=
  if texts.length = 0 then []
  else chunkTextsLoop (effMaxTexts maxTexts) texts

/-- Loop of Go `chunker.ChunkByTokens` over the remaining texts, carrying
the accumulator `currentChunk` and its running token total `currentTokens`.
An item whose own estimate exceeds `maxTokens` flushes the accumulator and
is emitted as a singleton chunk; an item that would push the accumulated
total over `maxTokens` flushes first; every item is then appended to the
current chunk. The final non-empty accumulator is flushed at the end. -/
def chunkTokensLoop (maxTokens : Nat) :
    List String → List String → Nat → List (List String)
  | [], currentChunk, _ =>
      if currentChunk = [] then [] else [currentChunk]
  | text :: rest, currentChunk, currentTokens =>
      let textTokens := EstimateTokens text
      if maxTokens < textTokens then
        (if currentChunk = [] then [] else [currentChunk]) ++
          [text] :: chunkTokensLoop maxTokens rest [] 0
      else if maxTokens < currentTokens + textTokens ∧ currentChunk ≠ [] then
        currentChunk :: chunkTokensLoop maxTokens rest [text] textTokens
      else
        chunkTokensLoop maxTokens rest (currentChunk ++ [text]) (currentTokens + textTokens)

/-- Effective token budget of `ChunkByTokens`: non-positive arguments are
replaced by `DefaultMaxTokens`. -/
def effMaxTokens (maxTokens : Int) : Nat :=
  (if maxTokens ≤ 0 then DefaultMaxTokens else maxTokens).toNat

/-- Go `chunker.ChunkByTokens`: split `texts` into chunks whose estimated
token totals respect `maxTokens` (default 3000 when `maxTokens ≤ 0`),
keeping each text whole; `nil` for empty input. -/
def ChunkByTokens (texts : List String) (maxTokens : Int) : List (List String) :=
  if texts.length = 0 then []
  else chunkTokensLoop (effMaxTokens maxTokens) texts [] 0

theorem effMaxTexts_pos (maxTexts : Int) : 1 ≤ effMaxTexts maxTexts := by
  unfold effMaxTexts DefaultMaxTextsPerChunk
  split_ifs with h <;> omega

theorem chunkTokensLoop_flatten (mt : Nat) :
    ∀ (texts currentChunk : List String) (currentTokens : Nat),
      (chunkTokensLoop mt texts currentChunk currentTokens).flatten =
        currentChunk ++ texts := by
  intro texts
  induction texts with
  | nil =>
      intro cur tok
      by_cases h : cur = [] <;> simp [chunkTokensLoop, h]
  | cons t rest ih =>
      intro cur tok
      simp only [chunkTokensLoop]
      split_ifs with h1 h2 <;> by_cases hc : cur = [] <;>
        simp_all [List.flatten_cons]

theorem chunkTextsLoop_flatten (m : Nat) (hm : 1 ≤ m) (texts : List String) :
    (chunkTextsLoop m texts).flatten = texts := by
  generalize hn : texts.length = n
  induction n using Nat.strong_induction_on generalizing texts with
  | _ n ih =>
    cases texts with
    | nil => simp [chunkTextsLoop]
    | cons t rest =>
      subst hn
      simp only [chunkTextsLoop, List.flatten_cons]
      rw [ih (rest.drop (m - 1)).length
            (by simp only [List.length_drop, List.length_cons]; omega) _ rfl]
      obtain ⟨m', rfl⟩ : ∃ m', m = m' + 1 := ⟨m - 1, by omega⟩
      simp only [List.take_succ_cons, List.cons_append, List.cons.injEq, true_and]
      exact List.take_append_drop m' rest

theorem ChunkByTokens_flatten (texts : List String) (budget : Int) :
    (ChunkByTokens texts budget).flatten = texts := by
  unfold ChunkByTokens
  split_ifs with h
  · simp [List.length_eq_zero.mp h]
  · simpa using chunkTokensLoop_flatten (effMaxTokens budget) texts [] 0

theorem ChunkTexts_flatten (texts : List String) (budget : Int) :
    (ChunkTexts texts budget).flatten = texts := by
  unfold ChunkTexts
  split_ifs with h
  · simp [List.length_eq_zero.mp h]
  · exact chunkTextsLoop_flatten _ (effMaxTexts_pos budget) texts

/-- Claim C1: for every input list of texts and every budget, the in-order
concatenation of the batches returned by the token-budget chunker
`ChunkByTokens` — and likewise by the count-based variant `ChunkTexts` — is
exactly the original input list, so every input item appears in exactly one
output batch with the original relative order preserved. -/
theorem chunking_preserves_order_C1 (texts : List String) (budget : Int) :
    (ChunkByTokens texts budget).flatten = texts ∧
      (ChunkTexts texts budget).flatten = texts :=
  ⟨ChunkByTokens_flatten texts budget, ChunkTexts_flatten texts budget⟩

theorem utf8ByteSize_pos_of_ne_empty (s : String) (h : s ≠ "") :
    0 < s.utf8ByteSize := by
  obtain ⟨cs⟩ := s
  cases cs with
  | nil => exact absurd rfl h
  | cons c cs =>
      have hc := Char.utf8Size_pos c
      simp only [String.utf8ByteSize, String.utf8ByteSize.go]
      omega

/-- Token estimate as claim C4's words state it, written from the spec for
refinement comparison only (not from the source): length divided by 4
rounded up, with a floor of 1 for non-empty text, and 0 for empty text. -/
def estimateTokensClaimedC4 (text : String) : Nat :=
  if text.utf8ByteSize = 0 then 0
  else max 1 ((text.utf8ByteSize + 3) / 4)

/-- Claim C4 counterexample: on the 5-byte text "aaaaa" the code returns
⌊5/4⌋ = 1, while the claimed formula max(1, ⌈5/4⌉) yields 2; the code
rounds the quotient down, not up. -/
theorem estimate_tokens_C4_cex :
    EstimateTokens "aaaaa" = 1 ∧ estimateTokensClaimedC4 "aaaaa" = 2 ∧
      EstimateTokens "aaaaa" ≠ estimateTokensClaimedC4 "aaaaa" := by
  decide

/-- Claim C4 amended: for every non-empty text, `EstimateTokens` returns
the text's byte length divided by 4 rounded down, with a floor of 1
(max(1, ⌊len/4⌋)), a positive integer; for the empty text it returns 0. -/
theorem estimate_tokens_C4_amended (text : String) :
    (text ≠ "" →
      EstimateTokens text = max 1 (text.utf8ByteSize / 4) ∧
        0 < EstimateTokens text) ∧
    EstimateTokens "" = 0 := by
  constructor
  · intro h
    have hbs : 0 < text.utf8ByteSize := utf8ByteSize_pos_of_ne_empty text h
    unfold EstimateTokens
    rw [if_neg (by omega)]
    show (if text.utf8ByteSize / 4 = 0 then 1 else text.utf8ByteSize / 4) =
        max 1 (text.utf8ByteSize / 4) ∧
      0 < (if text.utf8ByteSize / 4 = 0 then 1 else text.utf8ByteSize / 4)
    split_ifs with h4
    · rw [h4]
      exact ⟨rfl, Nat.one_pos⟩
    · have hb : 1 ≤ text.utf8ByteSize / 4 := by omega
      exact ⟨(max_eq_right hb).symm, by omega⟩
  · rfl

theorem estimate_tokens_C4_witness :
    EstimateTokens "Hi" = max 1 ("Hi".utf8ByteSize / 4) ∧
      0 < EstimateTokens "Hi" :=
  (estimate_tokens_C4_amended "Hi").1 (by decide)

theorem chunkTokensLoop_budget (mt : Nat) :
    ∀ (texts currentChunk : List String) (currentTokens : Nat),
      currentTokens = (currentChunk.map EstimateTokens).sum →
      currentTokens ≤ mt →
      ∀ chunk ∈ chunkTokensLoop mt texts currentChunk currentTokens,
        (chunk.map EstimateTokens).sum ≤ mt ∨
          ∃ t, chunk = [t] ∧ mt < EstimateTokens t := by
  intro texts
  induction texts with
  | nil =>
      intro cur tok htok hle chunk hmem
      simp only [chunkTokensLoop] at hmem
      split_ifs at hmem with h
      · simp at hmem
      · simp only [List.mem_singleton] at hmem
        subst hmem
        exact Or.inl (by omega)
  | cons t rest ih =>
      intro cur tok htok hle chunk hmem
      simp only [chunkTokensLoop] at hmem
      by_cases h1 : mt < EstimateTokens t
      · -- oversized item: flush, emit singleton, continue fresh
        rw [if_pos h1, List.mem_append, List.mem_cons] at hmem
        rcases hmem with hflush | hsing | hrest
        · by_cases hc : cur = []
          · rw [if_pos hc] at hflush
            simp at hflush
          · rw [if_neg hc] at hflush
            simp only [List.mem_singleton] at hflush
            subst hflush
            exact Or.inl (by omega)
        · subst hsing
          exact Or.inr ⟨t, rfl, h1⟩
        · exact ih [] 0 rfl (Nat.zero_le _) chunk hrest
      · rw [if_neg h1] at hmem
        by_cases h2 : mt < tok + EstimateTokens t ∧ cur ≠ []
        · -- would overflow: flush current, restart with this item
          rw [if_pos h2, List.mem_cons] at hmem
          rcases hmem with hcur | hrest
          · subst hcur
            exact Or.inl (by omega)
          · exact ih [t] (EstimateTokens t) (by simp) (by omega) chunk hrest
        · -- append to current chunk
          rw [if_neg h2] at hmem
          push_neg at h2
          have hfit : tok + EstimateTokens t ≤ mt := by
            by_cases hc : cur = []
            · subst hc
              simp only [List.map_nil, List.sum_nil] at htok
              omega
            · by_contra hcon
              push_neg at hcon
              exact hc (h2 hcon)
          exact ih (cur ++ [t]) (tok + EstimateTokens t) (by simp [htok]) hfit chunk hmem

/-- Claim C3: every batch produced by `ChunkByTokens` is well-formed — its
total estimated token cost is at most the effective budget, or it is a
singleton batch holding one oversized item; and any oversized item in a
batch implies that batch is exactly the singleton of that item. -/
theorem chunk_budget_C3 (texts : List String) (budget : Int) :
    ∀ chunk ∈ ChunkByTokens texts budget,
      ((chunk.map EstimateTokens).sum ≤ effMaxTokens budget ∨
        ∃ t, chunk = [t] ∧ effMaxTokens budget < EstimateTokens t) ∧
      ∀ t ∈ chunk, effMaxTokens budget < EstimateTokens t → chunk = [t] := by
  intro chunk hmem
  have hmain :
      (chunk.map EstimateTokens).sum ≤ effMaxTokens budget ∨
        ∃ t, chunk = [t] ∧ effMaxTokens budget < EstimateTokens t := by
    unfold ChunkByTokens at hmem
    split_ifs at hmem with h
    · simp at hmem
    · exact chunkTokensLoop_budget _ texts [] 0 rfl (Nat.zero_le _) chunk hmem
  refine ⟨hmain, ?_⟩
  intro t ht hover
  rcases hmain with hsum | ⟨u, rfl, _⟩
  · exfalso
    have hle : EstimateTokens t ≤ (chunk.map EstimateTokens).sum :=
      List.single_le_sum (by simp) _ (List.mem_map_of_mem _ ht)
    omega
  · simp only [List.mem_singleton] at ht
    rw [ht]

theorem chunk_budget_C3_witness :
    (((["aaaa"] : List String).map EstimateTokens).sum ≤ effMaxTokens 1 ∨
      ∃ t, (["aaaa"] : List String) = [t] ∧ effMaxTokens 1 < EstimateTokens t) ∧
    ∀ t ∈ (["aaaa"] : List String),
      effMaxTokens 1 < EstimateTokens t → (["aaaa"] : List String) = [t] :=
  chunk_budget_C3 ["aaaa"] 1 ["aaaa"] (by decide)

theorem chunkTokensLoop_ne_nil (mt : Nat) :
    ∀ (texts currentChunk : List String) (currentTokens : Nat),
      ∀ chunk ∈ chunkTokensLoop mt texts currentChunk currentTokens,
        chunk ≠ [] := by
  intro texts
  induction texts with
  | nil =>
      intro cur tok chunk hmem
      simp only [chunkTokensLoop] at hmem
      split_ifs at hmem with h
      · simp at hmem
      · simp only [List.mem_singleton] at hmem
        exact hmem ▸ h
  | cons t rest ih =>
      intro cur tok chunk hmem
      simp only [chunkTokensLoop] at hmem
      by_cases h1 : mt < EstimateTokens t
      · rw [if_pos h1, List.mem_append, List.mem_cons] at hmem
        rcases hmem with hflush | hsing | hrest
        · by_cases hc : cur = []
          · rw [if_pos hc] at hflush
            simp at hflush
          · rw [if_neg hc] at hflush
            simp only [List.mem_singleton] at hflush
            exact hflush ▸ hc
        · subst hsing
          simp
        · exact ih [] 0 chunk hrest
      · rw [if_neg h1] at hmem
        by_cases h2 : mt < tok + EstimateTokens t ∧ cur ≠ []
        · rw [if_pos h2, List.mem_cons] at hmem
          rcases hmem with hcur | hrest
          · exact hcur ▸ h2.2
          · exact ih [t] (EstimateTokens t) chunk hrest
        · rw [if_neg h2] at hmem
          exact ih (cur ++ [t]) (tok + EstimateTokens t) chunk hmem

theorem chunkTextsLoop_ne_nil (m : Nat) (hm : 1 ≤ m) (texts : List String) :
    ∀ chunk ∈ chunkTextsLoop m texts, chunk ≠ [] := by
  generalize hn : texts.length = n
  induction n using Nat.strong_induction_on generalizing texts with
  | _ n ih =>
    cases texts with
    | nil => simp [chunkTextsLoop]
    | cons t rest =>
      subst hn
      intro chunk hmem
      simp only [chunkTextsLoop, List.mem_cons] at hmem
      rcases hmem with htake | hrest
      · obtain ⟨m', rfl⟩ : ∃ m', m = m' + 1 := ⟨m - 1, by omega⟩
        rw [htake]
        simp [List.take_succ_cons]
      · exact ih (rest.drop (m - 1)).length
          (by simp only [List.length_drop, List.length_cons]; omega) _ rfl chunk hrest

/-- Claim C10: every batch emitted by either chunker is non-empty; a
non-empty input yields at least one batch, and an empty input yields zero
batches. -/
theorem chunks_nonempty_C10 (texts : List String) (budget : Int) :
    (∀ chunk ∈ ChunkByTokens texts budget, chunk ≠ []) ∧
    (∀ chunk ∈ ChunkTexts texts budget, chunk ≠ []) ∧
    (texts ≠ [] → ChunkByTokens texts budget ≠ [] ∧ ChunkTexts texts budget ≠ []) ∧
    ChunkByTokens [] budget = [] ∧ ChunkTexts [] budget = [] := by
  refine ⟨?_, ?_, ?_, by simp [ChunkByTokens], by simp [ChunkTexts]⟩
  · intro chunk hmem
    unfold ChunkByTokens at hmem
    split_ifs at hmem with h
    · simp at hmem
    · exact chunkTokensLoop_ne_nil _ texts [] 0 chunk hmem
  · intro chunk hmem
    unfold ChunkTexts at hmem
    split_ifs at hmem with h
    · simp at hmem
    · exact chunkTextsLoop_ne_nil _ (effMaxTexts_pos budget) texts chunk hmem
  · intro h
    constructor
    · intro hcontra
      have hf := ChunkByTokens_flatten texts budget
      rw [hcontra] at hf
      exact h hf.symm
    · intro hcontra
      have hf := ChunkTexts_flatten texts budget
      rw [hcontra] at hf
      exact h hf.symm

theorem chunks_nonempty_C10_witness :
    ((["a"] : List String) ≠ []) ∧
      (ChunkByTokens ["a"] 5 ≠ [] ∧ ChunkTexts ["a"] 5 ≠ []) :=
  ⟨(chunks_nonempty_C10 ["a"] 5).1 ["a"] (by decide),
    (chunks_nonempty_C10 ["a"] 5).2.2.1 (by decide)⟩

/-- Go `router.romanceLanguages` (hub-pivot router): the Romance language
codes servable by the romance-en / en-romance translators. -/
def romanceLanguages : List String :=
  ["es", "es_AR", "es_CL", "es_CO", "es_CR", "es_DO", "es_EC", "es_ES", "es_GT",
   "es_HN", "es_MX", "es_NI", "es_PA", "es_PE", "es_PR", "es_SV", "es_UY", "es_VE",
   "fr", "fr_BE", "fr_CA", "fr_FR", "wa", "frp", "oc",
   "it", "co", "nap", "scn", "vec",
   "pt", "pt_BR", "pt_PT", "gl", "mwl",
   "ca", "an", "lad",
   "ro",
   "la", "rm", "lld", "fur", "lij", "lmo", "sc"]

/-- Membership test of the Go map `romanceLanguages` (`romanceLanguages[l]`). -/
def romance (l : String) : Bool := romanceLanguages.contains l

/-- Go `router.supportedLanguages` as built by the package `init` function:
every Romance code plus "de" and "en". -/
def supported (l : String) : Bool := romance l || l == "de" || l == "en"

/-- Go `(*Router).IsValidPair` (hub-pivot router). -/
def IsValidPair (source target : String) : Bool :=
  supported source && supported target && source != target

/-- One step of a route, Go's anonymous `struct { lambdaName, targetLang string }`
returned by `getRoute`; `targetLang` is set only for the en-romance Lambda. -/
structure Hop where
  lambdaName : String
  targetLang : String
deriving DecidableEq, Inhabited

/-- Go `(*Router).getRoute`: the ordered list of Lambdas to call for a
language pair, with the Go `nil` result embedded as `[]`. The Go function
is a chain of guarded returns; the fall-through order is kept exactly. -/
def getRoute (source target : String) : List Hop :=
  if target = "en" ∧ romance source = true then
    [{ lambdaName := "pricofy-translator-romance-en", targetLang := "" }]
  else if target = "en" ∧ source = "de" then
    [{ lambdaName := "pricofy-translator-de-en", targetLang := "" }]
  else if source = "en" ∧ romance target = true then
    [{ lambdaName := "pricofy-translator-en-romance", targetLang := target }]
  else if source = "en" ∧ target = "de" then
    [{ lambdaName := "pricofy-translator-en-de", targetLang := "" }]
  else if romance source = true ∧ romance target = true then
    [{ lambdaName := "pricofy-translator-romance-en", targetLang := "" },
     { lambdaName := "pricofy-translator-en-romance", targetLang := target }]
  else if romance source = true ∧ target = "de" then
    [{ lambdaName := "pricofy-translator-romance-en", targetLang := "" },
     { lambdaName := "pricofy-translator-en-de", targetLang := "" }]
  else if source = "de" ∧ romance target = true then
    [{ lambdaName := "pricofy-translator-de-en", targetLang := "" },
     { lambdaName := "pricofy-translator-en-romance", targetLang := target }]
  else []

/-- Language pairs for which claim C2 asserts a one-hop route: one side is
a hub directly adjacent to the other (romance→en, de→en, en→romance,
en→de). -/
def oneHopPair (source target : String) : Prop :=
  (target = "en" ∧ romance source = true) ∨ (target = "en" ∧ source = "de") ∨
    (source = "en" ∧ romance target = true) ∨ (source = "en" ∧ target = "de")

/-- Language pairs for which claim C2 asserts a two-hop route: leaf↔leaf
(romance↔romance) or leaf↔other-hub (romance↔de). -/
def twoHopPair (source target : String) : Prop :=
  (romance source = true ∧ romance target = true) ∨
    (romance source = true ∧ target = "de") ∨
    (source = "de" ∧ romance target = true)

theorem supported_of_romance {l : String} (h : romance l = true) :
    supported l = true := by
  simp [supported, h]

theorem supported_iff (l : String) :
    supported l = true ↔ (romance l = true ∨ l = "de" ∨ l = "en") := by
  simp [supported, Bool.or_eq_true, beq_iff_eq, or_assoc]

theorem IsValidPair_iff (s t : String) :
    IsValidPair s t = true ↔
      (supported s = true ∧ supported t = true ∧ s ≠ t) := by
  simp [IsValidPair, Bool.and_eq_true, bne_iff_ne, and_assoc]

/-- Claim C2: for every valid language pair the resolved route has exactly
1 hop when one side is a hub directly adjacent to the other and exactly 2
hops for leaf↔leaf or leaf↔other-hub pairs; the resolver never produces
more than 2 hops; and resolution fails (empty route) whenever either code
is outside the known language set. -/
theorem routing_hops_C2 (s t : String) :
    (getRoute s t).length ≤ 2 ∧
    ((supported s = false ∨ supported t = false) → getRoute s t = []) ∧
    (IsValidPair s t = true →
      ((getRoute s t).length = 1 ↔ oneHopPair s t) ∧
      ((getRoute s t).length = 2 ↔ twoHopPair s t)) := by
  have hde : romance "de" = false := by decide
  have hen : romance "en" = false := by decide
  have hends : ("en" : String) ≠ "de" := by decide
  rw [IsValidPair_iff]
  unfold getRoute oneHopPair twoHopPair
  split_ifs with h1 h2 h3 h4 h5 h6 h7 <;>
    [obtain ⟨hA, hB⟩ := h1; obtain ⟨hA, hB⟩ := h2; obtain ⟨hA, hB⟩ := h3;
     obtain ⟨hA, hB⟩ := h4; obtain ⟨hA, hB⟩ := h5; obtain ⟨hA, hB⟩ := h6;
     obtain ⟨hA, hB⟩ := h7; skip] <;>
    refine ⟨by simp, ?_, ?_⟩
  -- branch 1: romance → en
  · rintro (hf | hf)
    · rw [supported_of_romance hB] at hf; cases hf
    · rw [hA] at hf; rw [show supported "en" = true from by decide] at hf; cases hf
  · intro _
    subst hA
    refine ⟨iff_of_true rfl (Or.inl ⟨rfl, hB⟩), iff_of_false (by simp) ?_⟩
    rintro (⟨_, hrt⟩ | ⟨_, hd⟩ | ⟨_, hrt⟩)
    · rw [hen] at hrt; cases hrt
    · exact hends hd
    · rw [hen] at hrt; cases hrt
  -- branch 2: de → en
  · rintro (hf | hf)
    · rw [hB] at hf; rw [show supported "de" = true from by decide] at hf; cases hf
    · rw [hA] at hf; rw [show supported "en" = true from by decide] at hf; cases hf
  · intro _
    subst hA; subst hB
    refine ⟨iff_of_true rfl (Or.inr (Or.inl ⟨rfl, rfl⟩)), iff_of_false (by simp) ?_⟩
    rintro (⟨hrs, _⟩ | ⟨hrs, _⟩ | ⟨_, hrt⟩)
    · rw [hde] at hrs; cases hrs
    · rw [hde] at hrs; cases hrs
    · rw [hen] at hrt; cases hrt
  -- branch 3: en → romance
  · rintro (hf | hf)
    · rw [hA] at hf; rw [show supported "en" = true from by decide] at hf; cases hf
    · rw [supported_of_romance hB] at hf; cases hf
  · intro _
    subst hA
    refine ⟨iff_of_true rfl (Or.inr (Or.inr (Or.inl ⟨rfl, hB⟩))),
      iff_of_false (by simp) ?_⟩
    rintro (⟨hrs, _⟩ | ⟨hrs, _⟩ | ⟨hd, _⟩)
    · rw [hen] at hrs; cases hrs
    · rw [hen] at hrs; cases hrs
    · exact hends hd
  -- branch 4: en → de
  · rintro (hf | hf)
    · rw [hA] at hf; rw [show supported "en" = true from by decide] at hf; cases hf
    · rw [hB] at hf; rw [show supported "de" = true from by decide] at hf; cases hf
  · intro _
    subst hA; subst hB
    refine ⟨iff_of_true rfl (Or.inr (Or.inr (Or.inr ⟨rfl, rfl⟩))),
      iff_of_false (by simp) ?_⟩
    rintro (⟨hrs, _⟩ | ⟨hrs, _⟩ | ⟨hd, _⟩)
    · rw [hen] at hrs; cases hrs
    · rw [hen] at hrs; cases hrs
    · exact hends hd
  -- branch 5: romance → romance (pivot)
  · rintro (hf | hf)
    · rw [supported_of_romance hA] at hf; cases hf
    · rw [supported_of_romance hB] at hf; cases hf
  · intro _
    refine ⟨iff_of_false (by simp) ?_, iff_of_true rfl (Or.inl ⟨hA, hB⟩)⟩
    rintro (⟨ht, _⟩ | ⟨ht, hsd⟩ | ⟨hse, _⟩ | ⟨hse, _⟩)
    · rw [ht, hen] at hB; cases hB
    · rw [ht, hen] at hB; cases hB
    · rw [hse, hen] at hA; cases hA
    · rw [hse, hen] at hA; cases hA
  -- branch 6: romance → de (pivot)
  · rintro (hf | hf)
    · rw [supported_of_romance hA] at hf; cases hf
    · rw [hB] at hf; rw [show supported "de" = true from by decide] at hf; cases hf
  · intro _
    subst hB
    refine ⟨iff_of_false (by simp) ?_, iff_of_true rfl (Or.inr (Or.inl ⟨hA, rfl⟩))⟩
    rintro (⟨ht, _⟩ | ⟨ht, hsd⟩ | ⟨hse, _⟩ | ⟨hse, _⟩)
    · exact hends ht.symm
    · exact hends ht.symm
    · rw [hse, hen] at hA; cases hA
    · rw [hse, hen] at hA; cases hA
  -- branch 7: de → romance (pivot)
  · rintro (hf | hf)
    · rw [hA] at hf; rw [show supported "de" = true from by decide] at hf; cases hf
    · rw [supported_of_romance hB] at hf; cases hf
  · intro _
    subst hA
    refine ⟨iff_of_false (by simp) ?_,
      iff_of_true rfl (Or.inr (Or.inr ⟨rfl, hB⟩))⟩
    rintro (⟨ht, _⟩ | ⟨ht, hsd⟩ | ⟨hse, _⟩ | ⟨hse, _⟩)
    · rw [ht, hen] at hB; cases hB
    · rw [ht, hen] at hB; cases hB
    · exact hends hse.symm
    · exact hends hse.symm
  -- branch 8: no decomposition
  · intro _
    rfl
  · rintro ⟨hs, ht, hst⟩
    exfalso
    rcases (supported_iff s).mp hs with hrs | hsd | hse <;>
      rcases (supported_iff t).mp ht with hrt | htd | hte
    · exact h5 ⟨hrs, hrt⟩
    · exact h6 ⟨hrs, htd⟩
    · exact h1 ⟨hte, hrs⟩
    · exact h7 ⟨hsd, hrt⟩
    · exact hst (hsd.trans htd.symm)
    · exact h2 ⟨hte, hsd⟩
    · exact h3 ⟨hse, hrt⟩
    · exact h4 ⟨hse, htd⟩
    · exact hst (hse.trans hte.symm)

theorem routing_hops_C2_witness :
    (getRoute "es" "fr").length = 2 ∧ (getRoute "es" "en").length = 1 :=
  ⟨((routing_hops_C2 "es" "fr").2.2 (by decide)).2.mpr (by unfold twoHopPair; decide),
    ((routing_hops_C2 "es" "en").2.2 (by decide)).1.mpr (by unfold oneHopPair; decide)⟩

/-- Claim C5 counterexample: for the valid hub-outbound pair en→de the
resolved route is one hop whose sub-target is the empty string, not "de";
so not every hub-outbound hop carries sub-target = target. -/
theorem subtarget_C5_cex :
    IsValidPair "en" "de" = true ∧
      getRoute "en" "de" =
        [{ lambdaName := "pricofy-translator-en-de", targetLang := "" }] ∧
      (getRoute "en" "de").map Hop.targetLang ≠ ["de"] := by
  decide

/-- Claim C5 amended: for every valid pair with source "en" and a Romance
target, the route is one hop carrying sub-target = target; the en→de hop
(like every hop other than en-romance) carries an empty sub-target. -/
theorem subtarget_C5_amended (t : String) :
    (romance t = true →
      getRoute "en" t =
        [{ lambdaName := "pricofy-translator-en-romance", targetLang := t }]) ∧
    getRoute "en" "de" =
      [{ lambdaName := "pricofy-translator-en-de", targetLang := "" }] := by
  constructor
  · intro h
    have hen : romance "en" = false := by decide
    unfold getRoute
    rw [if_neg, if_neg, if_pos ⟨rfl, h⟩]
    · rintro ⟨ht, _⟩
      rw [ht, hen] at h; cases h
    · rintro ⟨ht, _⟩
      rw [ht, hen] at h; cases h
  · decide

theorem subtarget_C5_witness :
    getRoute "en" "fr" =
      [{ lambdaName := "pricofy-translator-en-romance", targetLang := "fr" }] :=
  (subtarget_C5_amended "fr").1 (by decide)

/-- Outcome of one raw Lambda invocation as observed by `invokeLambda`:
transport failure of the Invoke call, a reported FunctionError, an
unparsable response payload, or a decoded TranslatorResponse carrying the
translated chunks and an optional application error string. -/
inductive InvokeOutcome where
  | transportFailure (msg : String)
  | functionFailure (msg : String)
  | badPayload (msg : String)
  | response (translations : List (List String)) (err : String)

/-- Abstract Lambda client: given function name, the sub-target language of
the marshaled TranslatorRequest and its chunks, produce the raw outcome. -/
abbrev LambdaClient :=
  String → String → List (List String) → InvokeOutcome

/-- Trace entry of one remote call: (function name, sub-target language). -/
abbrev RemoteCall := String × String

/-- Go `(*Router).invokeLambda` over an abstract Lambda client. Marshaling
the request cannot fail for string payloads and is not modelled; the four
failure checks of the Go function map to the four outcome shapes. -/
def invokeLambda (lc : LambdaClient) (functionName targetLang : String)
    (chunks : List (List String)) : Except String (List (List String)) :=
  match lc functionName targetLang chunks with
  | .transportFailure e => .error ("failed to invoke " ++ functionName ++ ": " ++ e)
  | .functionFailure e => .error ("lambda error: " ++ e)
  | .badPayload e => .error ("failed to parse response: " ++ e)
  | .response translations err =>
      if err ≠ "" then .error ("translator error: " ++ err)
      else .ok translations

/-- Loop of Go `(*Router).TranslateChunks` over the route steps
(`for i, step := range route`, so the error message numbers steps from
`idx + 1`), paired with the trace of remote calls it performs. -/
def runRoute (lc : LambdaClient) :
    List Hop → Nat → List (List String) →
      Except String (List (List String)) × List RemoteCall
  | [], _, currentChunks => (.ok currentChunks, [])
  | step :: rest, i, currentChunks =>
      match invokeLambda lc step.lambdaName step.targetLang currentChunks with
      | .error e =>
          (.error ("step " ++ toString (i + 1) ++ " (" ++ step.lambdaName ++
              ") failed: " ++ e),
            [(step.lambdaName, step.targetLang)])
      | .ok result =>
          let next := runRoute lc rest (i + 1) result
          (next.1, (step.lambdaName, step.targetLang) :: next.2)

/-- Go `(*Router).TranslateChunks` (hub-pivot router), with call trace:
resolve the route and execute its hops in sequence, feeding each hop's
result to the next. -/
def TranslateChunks (lc : LambdaClient) (source target : String)
    (chunks : List (List String)) :
    Except String (List (List String)) × List RemoteCall :=
  if chunks.length = 0 then (.ok [], [])
  else if getRoute source target = [] then
    (.error ("unsupported language pair: " ++ source ++ "-" ++ target), [])
  else runRoute lc (getRoute source target) 0 chunks

theorem runRoute_spec (lc : LambdaClient) :
    ∀ (route : List Hop) (idx : Nat) (cur : List (List String)),
      (∃ final, runRoute lc route idx cur =
          (.ok final, route.map fun h => (h.lambdaName, h.targetLang))) ∨
      (∃ j msg, j < route.length ∧
        (runRoute lc route idx cur).1 =
          .error ("step " ++ toString (idx + j + 1) ++ " (" ++
            (route.getD j default).lambdaName ++ ") failed: " ++ msg) ∧
        (runRoute lc route idx cur).2 =
          (route.take (j + 1)).map fun h => (h.lambdaName, h.targetLang)) := by
  intro route
  induction route with
  | nil =>
      intro idx cur
      exact Or.inl ⟨cur, rfl⟩
  | cons step rest ih =>
      intro idx cur
      cases hinv : invokeLambda lc step.lambdaName step.targetLang cur with
      | error e =>
          right
          refine ⟨0, e, by simp, ?_, ?_⟩ <;>
            simp [runRoute, hinv]
      | ok result =>
          rcases ih (idx + 1) result with ⟨final, hok⟩ | ⟨j, msg, hj, herr, htr⟩
          · left
            refine ⟨final, ?_⟩
            simp [runRoute, hinv, hok]
          · right
            refine ⟨j + 1, msg, by simp; omega, ?_, ?_⟩
            · have harith : idx + 1 + j + 1 = idx + (j + 1) + 1 := by omega
              simp only [runRoute, hinv]
              rw [← harith]
              simpa using herr
            · simp only [runRoute, hinv, List.take_succ_cons, List.map_cons]
              simpa using htr

/-- Claim C8: if any hop's remote invocation fails (transport error or
application-level error in the response), route execution aborts at that
hop: the result is an error naming the failing step number and service
name, the call trace is exactly the route's hops up to and including the
failing one — each invoked once, in order, none afterwards — and no
translations are returned. -/
theorem hop_abort_C8 (lc : LambdaClient) (s t : String)
    (chunks : List (List String)) (e : String) :
    chunks ≠ [] → getRoute s t ≠ [] →
    (TranslateChunks lc s t chunks).1 = .error e →
    ∃ i msg, i < (getRoute s t).length ∧
      e = "step " ++ toString (i + 1) ++ " (" ++
        ((getRoute s t).getD i default).lambdaName ++ ") failed: " ++ msg ∧
      (TranslateChunks lc s t chunks).2 =
        ((getRoute s t).take (i + 1)).map fun h => (h.lambdaName, h.targetLang) := by
  intro hchunks hroute herr
  have hlen : ¬ chunks.length = 0 := by simpa using hchunks
  rw [TranslateChunks, if_neg hlen, if_neg hroute] at herr ⊢
  rcases runRoute_spec lc (getRoute s t) 0 chunks with ⟨final, hok⟩ |
    ⟨j, msg, hj, he, htr⟩
  · simp [hok] at herr
  · refine ⟨j, msg, hj, ?_, htr⟩
    rw [he] at herr
    simp only [Nat.zero_add] at herr
    exact (Except.error.inj herr).symm

theorem hop_abort_C8_witness :
    ∃ i msg, i < (getRoute "es" "fr").length ∧
      ("step 1 (pricofy-translator-romance-en) failed: " ++
          "failed to invoke pricofy-translator-romance-en: boom") =
        "step " ++ toString (i + 1) ++ " (" ++
          ((getRoute "es" "fr").getD i default).lambdaName ++ ") failed: " ++ msg ∧
      (TranslateChunks (fun _ _ _ => .transportFailure "boom") "es" "fr"
          [["hola"]]).2 =
        ((getRoute "es" "fr").take (i + 1)).map fun h => (h.lambdaName, h.targetLang) :=
  hop_abort_C8 (fun _ _ _ => .transportFailure "boom") "es" "fr" [["hola"]] _
    (by decide) (by decide) rfl

/-- Go `handler.Request`; `texts` is a Go slice whose `nil` (absent) state
is distinguished from an empty slice, embedded as `Option`. -/
structure Request where
  texts : Option (List String)
  sourceLang : String
  targetLang : String
deriving DecidableEq

/-- Go `handler.Response` (the `omitempty` JSON rendering is not modelled;
zero values stand for absent fields). -/
structure Response where
  translations : List String
  chunksProcessed : Nat
  error : String
deriving DecidableEq

/-- Go `handler.validateRequest`: the error message, or `none` when valid. -/
def validateRequest (req : Request) : Option String :=
  if req.sourceLang = "" then some "sourceLang is required"
  else if req.targetLang = "" then some "targetLang is required"
  else if req.sourceLang = req.targetLang then
    some "sourceLang and targetLang must be different"
  else if req.texts = none then some "texts is required"
  else none

/-- Go `router.supportedLanguages` of the direct-pair router iteration
used by `Handle` (the five-language map, "without English"). -/
def supportedLanguagesV1 : List String := ["es", "it", "pt", "fr", "de"]

/-- Go `(*Router).HasDirectPair` (direct-pair router iteration). -/
def HasDirectPair (source target : String) : Bool :=
  supportedLanguagesV1.contains source && supportedLanguagesV1.contains target &&
    source != target

/-- Go `handler.Handle`, parameterized over the outcome of `router.New`
(which can fail only while loading AWS config) and over the router's
chunk-translation capability `tc`, which returns the Lambda result
together with the trace of remote calls it made. The returned trace is
the complete set of remote calls `Handle` issues. -/
def Handle (newRouterErr : Option String)
    (tc : String → String → List (List String) →
      Except String (List (List String)) × List RemoteCall)
    (req : Request) : Response × List RemoteCall :=
  match validateRequest req with
  | some e => ({ translations := [], chunksProcessed := 0, error := e }, [])
  | none =>
      if (req.texts.getD []).length = 0 then
        ({ translations := [], chunksProcessed := 0, error := "" }, [])
      else
        match newRouterErr with
        | some e =>
            ({ translations := [], chunksProcessed := 0,
               error := "failed to create router: " ++ e }, [])
        | none =>
            if HasDirectPair req.sourceLang req.targetLang = false then
              ({ translations := [], chunksProcessed := 0,
                 error := "no translator for " ++ req.sourceLang ++ "→" ++
                   req.targetLang }, [])
            else
              let chunks := ChunkByTokens (req.texts.getD []) DefaultMaxTokens
              match tc req.sourceLang req.targetLang chunks with
              | (.error e, calls) =>
                  ({ translations := [], chunksProcessed := 0,
                     error := "translation failed: " ++ e }, calls)
              | (.ok chunkResults, calls) =>
                  ({ translations := chunkResults.flatten,
                     chunksProcessed := chunks.length, error := "" }, calls)

/-- Claim C6: every request violating validation yields an error response
immediately with zero remote calls; the source-equals-target violation's
message contains "must be different"; and a nil `texts` field is an error
distinct from an empty-but-present list, which validates fine. -/
theorem validation_C6 (newRouterErr : Option String)
    (tc : String → String → List (List String) →
      Except String (List (List String)) × List RemoteCall)
    (req : Request) :
    (∀ e, validateRequest req = some e →
      Handle newRouterErr tc req =
        ({ translations := [], chunksProcessed := 0, error := e }, [])) ∧
    (req.sourceLang ≠ "" → req.sourceLang = req.targetLang →
      (Handle newRouterErr tc req).1.error =
          "sourceLang and targetLang must be different" ∧
        ∃ p q, (Handle newRouterErr tc req).1.error = p ++ "must be different" ++ q) ∧
    (req.sourceLang ≠ "" → req.targetLang ≠ "" → req.sourceLang ≠ req.targetLang →
      (req.texts = none → validateRequest req = some "texts is required") ∧
      (∀ l, req.texts = some l → validateRequest req = none)) := by
  refine ⟨?_, ?_, ?_⟩
  · intro e he
    simp only [Handle, he]
  · intro hs heq
    have hv : validateRequest req = some "sourceLang and targetLang must be different" := by
      rw [validateRequest, if_neg hs, if_neg (heq ▸ hs), if_pos heq]
    have hh : Handle newRouterErr tc req =
        ({ translations := [], chunksProcessed := 0,
           error := "sourceLang and targetLang must be different" }, []) := by
      simp only [Handle, hv]
    rw [hh]
    exact ⟨rfl, "sourceLang and targetLang ", "", by decide⟩
  · intro hs ht hne
    constructor
    · intro hnil
      rw [validateRequest, if_neg hs, if_neg ht, if_neg hne, if_pos hnil]
    · intro l hl
      rw [validateRequest, if_neg hs, if_neg ht, if_neg hne,
        if_neg (by simp [hl])]

theorem validation_C6_witness :
    (Handle none (fun _ _ _ => (.ok [], []))
        { texts := some ["Hello"], sourceLang := "es", targetLang := "es" }).1.error =
        "sourceLang and targetLang must be different" ∧
      ∃ p q, (Handle none (fun _ _ _ => (.ok [], []))
        { texts := some ["Hello"], sourceLang := "es", targetLang := "es" }).1.error =
          p ++ "must be different" ++ q :=
  (validation_C6 none (fun _ _ _ => (.ok [], []))
    { texts := some ["Hello"], sourceLang := "es", targetLang := "es" }).2.1
    (by decide) rfl

/-- Claim C7: a request that passes validation and carries a present but
empty texts list yields a success response with an empty translations list
and chunk count 0, with zero remote calls issued. -/
theorem empty_texts_C7 (newRouterErr : Option String)
    (tc : String → String → List (List String) →
      Except String (List (List String)) × List RemoteCall)
    (req : Request) :
    req.texts = some [] → validateRequest req = none →
    Handle newRouterErr tc req =
      ({ translations := [], chunksProcessed := 0, error := "" }, []) := by
  intro ht hv
  simp [Handle, hv, ht]

theorem empty_texts_C7_witness :
    Handle none (fun _ _ _ => (.ok [], []))
        { texts := some [], sourceLang := "es", targetLang := "fr" } =
      ({ translations := [], chunksProcessed := 0, error := "" }, []) :=
  empty_texts_C7 none (fun _ _ _ => (.ok [], []))
    { texts := some [], sourceLang := "es", targetLang := "fr" } rfl (by decide)

/-- Claim C9: on every successfully handled request the response's
translations list is the in-order flattening of the final batches returned
by route execution, and `chunksProcessed` equals the number of top-level
batches produced by the initial chunking of the input texts — independent
of how many batches the translation capability returned. -/
theorem flatten_count_C9
    (tc : String → String → List (List String) →
      Except String (List (List String)) × List RemoteCall)
    (req : Request) (texts : List String)
    (results : List (List String)) (calls : List RemoteCall) :
    req.texts = some texts → texts ≠ [] → validateRequest req = none →
    HasDirectPair req.sourceLang req.targetLang = true →
    tc req.sourceLang req.targetLang (ChunkByTokens texts DefaultMaxTokens) =
      (.ok results, calls) →
    Handle none tc req =
      ({ translations := results.flatten,
         chunksProcessed := (ChunkByTokens texts DefaultMaxTokens).length,
         error := "" }, calls) := by
  intro ht hne hv hd htc
  simp only [Handle, hv, ht, Option.getD_some]
  rw [if_neg (by simpa using hne), if_neg (by simp [hd]), htc]

theorem flatten_count_C9_witness :
    Handle none
        (fun _ _ _ => (.ok [["a"], ["b"]], [("pricofy-translator-es-fr", "")]))
        { texts := some ["hola"], sourceLang := "es", targetLang := "fr" } =
      ({ translations := [["a"], ["b"]].flatten,
         chunksProcessed := (ChunkByTokens ["hola"] DefaultMaxTokens).length,
         error := "" }, [("pricofy-translator-es-fr", "")]) :=
  flatten_count_C9
    (fun _ _ _ => (.ok [["a"], ["b"]], [("pricofy-translator-es-fr", "")]))
    { texts := some ["hola"], sourceLang := "es", targetLang := "fr" }
    ["hola"] [["a"], ["b"]] [("pricofy-translator-es-fr", "")]
    rfl (by decide) (by decide) (by decide) rfl

end TM
